import Mathlib

/-!
Verification of the task-extraction core of src/scripts/migrate-tasks-to-beads.py.

The file shallowly embeds the Python function parse_tasks_yaml (together with
its helpers slugify, priority_to_beads and status_to_beads) over a model of
already-deserialized YAML values.  Python exceptions are modelled with
Except String; a returned Except.error corresponds to the Python call raising
(the error string names the Python exception class).  YAML mapping keys are
modelled as strings (every claim only exercises string keys); mappings keep
document order and have unique keys, as PyYAML produces.  Character case
conversion is modelled on ASCII, matching the ASCII inputs of the source and
of the claims.
-/

/-- Model of a deserialized YAML value (the result of yaml.safe_load). -/
inductive Yaml where
  | null
  | bool (b : Bool)
  | int (n : Int)
  | str (s : String)
  | seq (items : List Yaml)
  | map (entries : List (String × Yaml))

/-- Python values that can serve as dict keys (hashable scalars).
Sequences and mappings are unhashable and raise TypeError when used as keys. -/
inductive Scalar where
  | null
  | bool (b : Bool)
  | int (n : Int)
  | str (s : String)
deriving DecidableEq

/-- Using a value as a dict key (or in a dict-membership test): scalars are
hashable, lists and dicts raise TypeError. -/
def asScalar : Yaml → Except String Scalar
  | .null => .ok .null
  | .bool b => .ok (.bool b)
  | .int n => .ok (.int n)
  | .str s => .ok (.str s)
  | _ => .error "TypeError: unhashable"

/-- Python truthiness of a value. -/
def truthy : Yaml → Bool
  | .null => false
  | .bool b => b
  | .int n => n != 0
  | .str s => s != ""
  | .seq l => !l.isEmpty
  | .map m => !m.isEmpty

/-- Whether the value is a mapping: models isinstance(v, dict). -/
def Yaml.isMapB : Yaml → Bool
  | .map _ => true
  | _ => false

/-- Whether the value is a string: models isinstance(v, str). -/
def Yaml.isStrB : Yaml → Bool
  | .str _ => true
  | _ => false

/-- Models d.get(k, dflt) on a value known to be a dict. -/
def mget (dm : List (String × Yaml)) (k : String) (dflt : Yaml) : Yaml :=
  (List.lookup k dm).getD dflt

/-- Models v.get(...) on an arbitrary value: AttributeError unless a dict. -/
def asMap : Yaml → Except String (List (String × Yaml))
  | .map m => .ok m
  | _ => .error "AttributeError"

/-- Models calling a str method (.lower, .upper, .replace, .split) on an
arbitrary value: AttributeError unless a string. -/
def asStr : Yaml → Except String String
  | .str s => .ok s
  | _ => .error "AttributeError"

/-- Models Python iteration, as in a for loop: sequences yield their items,
strings yield their characters (as 1-character strings), dicts yield their
keys; other values raise TypeError. -/
def pyIter : Yaml → Except String (List Yaml)
  | .seq l => .ok l
  | .str s => .ok (s.toList.map (fun c => Yaml.str (String.mk [c])))
  | .map m => .ok (m.map (fun e => Yaml.str e.1))
  | _ => .error "TypeError: not iterable"

/-- Models v.items(): AttributeError unless a dict. -/
def pyItems : Yaml → Except String (List (String × Yaml))
  | .map m => .ok m
  | _ => .error "AttributeError"

/-- Models assignment d[k] = v on a Python dict: an existing key keeps its
position and gets the new value, a new key is appended. -/
def updIns {α β : Type} [BEq α] (m : List (α × β)) (k : α) (v : β) : List (α × β) :=
  if m.any (fun p => p.1 == k) then m.map (fun p => if p.1 == k then (p.1, v) else p)
  else m ++ [(k, v)]

/-- Character class of the regex [a-z0-9] (codes 97-122 and 48-57). -/
def isLowerAlnum (c : Char) : Bool :=
  (97 ≤ c.toNat && c.toNat ≤ 122) || (48 ≤ c.toNat && c.toNat ≤ 57)

/-- ASCII lower-casing of one character (codes 65-90 shift to 97-122). -/
def pyLowerChar (c : Char) : Char :=
  if 65 ≤ c.toNat ∧ c.toNat ≤ 90 then Char.ofNat (c.toNat + 32) else c

/-- ASCII upper-casing of one character (codes 97-122 shift to 65-90). -/
def pyUpperChar (c : Char) : Char :=
  if 97 ≤ c.toNat ∧ c.toNat ≤ 122 then Char.ofNat (c.toNat - 32) else c

/-- Models s.lower(). -/
def pyLower (s : String) : String := String.mk (s.toList.map pyLowerChar)

/-- Models s.upper(). -/
def pyUpper (s : String) : String := String.mk (s.toList.map pyUpperChar)

/-- Models s.replace(a, b) for one-character a and b: every occurrence of the
character a is replaced by b. -/
def pyReplaceChar (a b : Char) (s : String) : String :=
  String.mk (s.toList.map (fun c => if c = a then b else c))

/-- Models str.replace for a non-empty multi-character pattern: scans left to
right, replacing each occurrence of pat and continuing after it.  The Nat
argument is fuel bounding the traversal; the wrapper below passes the length
of the list, which always suffices since every step consumes at least one
character (the source only uses the non-empty pattern "Phase "). -/
def replaceF (pat rep : List Char) : Nat → List Char → List Char
  | _, [] => []
  | 0, l => l
  | fuel + 1, c :: cs =>
    if pat.isPrefixOf (c :: cs) then rep ++ replaceF pat rep fuel ((c :: cs).drop pat.length)
    else c :: replaceF pat rep fuel cs

/-- Models s.replace(pat, rep) for a non-empty pattern. -/
def pyReplaceStr (s pat rep : String) : String :=
  String.mk (replaceF pat.toList rep.toList s.toList.length s.toList)

/-- State-machine rendering of re.sub applied with pattern [^a-z0-9]+ and
replacement "-": each maximal run of characters outside [a-z0-9] becomes a
single hyphen.  The Bool flag records whether the previous input character was
part of such a run (so the hyphen for the run was already emitted). -/
def subDash : Bool → List Char → List Char
  | _, [] => []
  | prev, c :: cs =>
    if isLowerAlnum c then c :: subDash false cs
    else if prev then subDash true cs
    else '-' :: subDash true cs

/-- Models s.strip(of one hyphen): removes leading and trailing hyphens. -/
def stripDash (l : List Char) : List Char :=
  ((l.dropWhile (fun c => c == '-')).reverse.dropWhile (fun c => c == '-')).reverse

/-- Embeds slugify (line 30): lower-case, collapse runs of non [a-z0-9]
characters to single hyphens, strip boundary hyphens. -/
def slugify (text : String) : String :=
  String.mk (stripDash (subDash false (text.toList.map pyLowerChar)))

/-- Embeds priority_to_beads (line 37).  The source calls priority.lower(),
which raises AttributeError on non-strings; the recognized lower-cased values
map to 0-3 and everything else to 2 via mapping.get(..., 2). -/
def priority_to_beads (priority : Yaml) : Except String Nat := do
  let s ← asStr priority
  let ls := pyLower s
  .ok (if ls = "critical" then 0
       else if ls = "high" then 1
       else if ls = "medium" then 2
       else if ls = "low" then 3
       else 2)

/-- Embeds status_to_beads (line 48): status.lower() raises AttributeError on
non-strings; unrecognized strings default to open. -/
def status_to_beads (status : Yaml) : Except String String := do
  let s ← asStr status
  let ls := pyLower s
  .ok (if ls = "pending" then "open"
       else if ls = "in-progress" then "in_progress"
       else if ls = "in_progress" then "in_progress"
       else if ls = "completed" then "closed"
       else if ls = "done" then "closed"
       else "open")

/-- The phase-label computation used at lines 97, 114 and 152 of the source:
slugify(name.replace("Phase ", "").split(":")[0]).  List.splitOn models
str.split on the one-character separator; split never returns an empty list,
so headD only ever takes the first piece. -/
def phaseLabel (s : String) : String :=
  slugify (String.mk (((pyReplaceStr s "Phase " "").toList.splitOn ':').headD []))

/-- The shape-2 fallback label (lines 182-183): parts = task_id.split("-");
parts[0] if parts else "default". -/
def idPrefixLabel (task_id : String) : String :=
  match task_id.toList.splitOn '-' with
  | [] => "default"
  | p :: _ => String.mk p

/-- Models k[5:6].isdigit() (true when the key has a 6th character and it is
an ASCII digit; an empty slice is not a digit). -/
def digitAfterPhase (k : String) : Bool :=
  match k.toList.drop 5 with
  | [] => false
  | c :: _ => 48 ≤ c.toNat && c.toNat ≤ 57

/-- The phase-key scan of line 100: keys of the document, in document order,
that start with "phase" followed by a digit. -/
def phaseKeysOf (dm : List (String × Yaml)) : List String :=
  (dm.map Prod.fst).filter (fun k => ("phase".toList.isPrefixOf k.toList) && digitAfterPhase k)

/-- The metadata-key set of line 120. -/
def metaKeys : List String :=
  ["name", "priority", "estimated_hours", "description", "dependencies"]

/-- Lexicographic comparison of strings by character code, as Python compares
strings. -/
def lexLe : List Char → List Char → Bool
  | [], _ => true
  | _ :: _, [] => false
  | a :: as, b :: bs =>
    if a.toNat < b.toNat then true
    else if b.toNat < a.toNat then false
    else lexLe as bs

/-- Insertion step of the sort modelling sorted(phase_keys). -/
def insertSorted (s : String) : List String → List String
  | [] => [s]
  | t :: ts => if lexLe s.toList t.toList then s :: t :: ts else t :: insertSorted s ts

/-- Models sorted(...) on a list of strings (ascending lexicographic order;
the elements here are distinct dict keys, so stability is irrelevant). -/
def sortStr : List String → List String
  | [] => []
  | s :: ss => insertSorted s (sortStr ss)

/-- One normalized task record, as appended to the tasks list. -/
structure TaskRec where
  id : String
  var_name : String
  name : Yaml
  description : Yaml
  priority : Nat
  status : String
  dependencies : Yaml
  label : String
  references : Yaml

/-- The dict returned by parse_tasks_yaml (lines 197-202). -/
structure ParseResult where
  project : Yaml
  metadata : Yaml
  tasks : List TaskRec
  task_id_map : List (String × String)

/-- The phase-name table construction of lines 92-97.  For each phase (a
mapping, else the attribute access raises): phase_id = phase.get("id",
"phase-idx"), phase_name = phase.get("name", phase_id); the slug of the name
is stored under the key phase_id.  The slug is computed before the key is
hashed, matching the evaluation order of the assignment statement. -/
def buildPhaseNames : Nat → List Yaml → List (Scalar × String) → Except String (List (Scalar × String))
  | _, [], acc => .ok acc
  | idx, p :: ps, acc => do
    let pd ← asMap p
    let phase_id := mget pd "id" (.str ("phase-" ++ toString idx))
    let phase_name := mget pd "name" phase_id
    let s ← asStr phase_name
    let slug := phaseLabel s
    let key ← asScalar phase_id
    buildPhaseNames (idx + 1) ps (updIns acc key slug)

/-- Line 103: any(phase.get("tasks") for phase in phases) -- lazily, stopping
at the first truthy tasks value. -/
def anyNestedTasks : List Yaml → Except String Bool
  | [] => .ok false
  | p :: ps => do
    let pd ← asMap p
    if truthy (mget pd "tasks" .null) then .ok true else anyNestedTasks ps

/-- One task record of shape 1 (lines 154-168).  nTasks is len(tasks) at the
time the record is made (used for the synthesized id).  Note the reference
token replaces only hyphens here (line 156). -/
def shape1_task (label : String) (nTasks : Nat) (t : Yaml) : Except String TaskRec := do
  let td ← asMap t
  let task_id ← asStr (mget td "id" (.str ("task-" ++ toString nTasks)))
  let var := "BEAD_" ++ pyReplaceChar '-' '_' (pyUpper task_id)
  let pr ← priority_to_beads (mget td "priority" (.str "medium"))
  let st ← status_to_beads (mget td "status" (.str "pending"))
  .ok { id := task_id, var_name := var,
        name := mget td "name" (.str task_id),
        description := mget td "description" (.str ""),
        priority := pr, status := st,
        dependencies := mget td "dependencies" (.seq []),
        label := label,
        references := mget td "references" (.seq []) }

/-- The inner task loop of shape 1, threading the growing output list and the
task_id_map. -/
def shape1_tasksLoop (label : String) :
    List Yaml → List TaskRec → List (String × String) →
    Except String (List TaskRec × List (String × String))
  | [], acc, im => .ok (acc, im)
  | t :: ts, acc, im => do
    let tk ← shape1_task label acc.length t
    shape1_tasksLoop label ts (acc ++ [tk]) (updIns im tk.id tk.var_name)

/-- The outer phase loop of shape 1 (lines 150-168): each phase contributes
its label and its tasks in order. -/
def shape1_phases : Nat → List Yaml → List TaskRec → List (String × String) →
    Except String (List TaskRec × List (String × String))
  | _, [], acc, im => .ok (acc, im)
  | idx, p :: ps, acc, im => do
    let pd ← asMap p
    let s ← asStr (mget pd "name" (mget pd "id" (.str ("phase-" ++ toString idx))))
    let label := phaseLabel s
    let ts ← pyIter (mget pd "tasks" (.seq []))
    let pair ← shape1_tasksLoop label ts acc im
    shape1_phases (idx + 1) ps pair.1 pair.2

/-- One task record of shape 2 (lines 172-195).  The label comes from the
phase reference when it is truthy and present in phase_names (a dict lookup,
so an unhashable reference raises TypeError), otherwise from the text before
the first hyphen of the id. -/
def shape2_task (phase_names : List (Scalar × String)) (nTasks : Nat) (t : Yaml) :
    Except String TaskRec := do
  let td ← asMap t
  let task_id ← asStr (mget td "id" (.str ("task-" ++ toString nTasks)))
  let var := "BEAD_" ++ pyReplaceChar '-' '_' (pyUpper task_id)
  let phase_ref := mget td "phase" (.str "")
  let label ←
    if truthy phase_ref then do
      let sc ← asScalar phase_ref
      match List.lookup sc phase_names with
      | some lbl => .ok lbl
      | none => .ok (idPrefixLabel task_id)
    else .ok (idPrefixLabel task_id)
  let pr ← priority_to_beads (mget td "priority" (.str "medium"))
  let st ← status_to_beads (mget td "status" (.str "pending"))
  .ok { id := task_id, var_name := var,
        name := mget td "name" (.str task_id),
        description := mget td "description" (.str ""),
        priority := pr, status := st,
        dependencies := mget td "dependencies" (.seq []),
        label := label,
        references := mget td "references" (.seq []) }

/-- The task loop of shape 2. -/
def shape2_tasksLoop (phase_names : List (Scalar × String)) :
    List Yaml → List TaskRec → List (String × String) →
    Except String (List TaskRec × List (String × String))
  | [], acc, im => .ok (acc, im)
  | t :: ts, acc, im => do
    let tk ← shape2_task phase_names acc.length t
    shape2_tasksLoop phase_names ts (acc ++ [tk]) (updIns im tk.id tk.var_name)

/-- One task record of shape 3 (lines 124-146).  The id is the task key; the
reference token replaces hyphens and colons (line 129); the name field is the
only one subject to the 100-character truncation (lines 132-134). -/
def shape3_task (label : String) (task_key : String) (td : List (String × Yaml)) :
    Except String TaskRec := do
  let var := "BEAD_" ++ pyReplaceChar ':' '_' (pyReplaceChar '-' '_' (pyUpper task_key))
  let name0 := mget td "name" (mget td "description" (.str task_key))
  let nm := match name0 with
    | .str s => if 100 < s.length then Yaml.str (String.mk (s.toList.take 100) ++ "...") else .str s
    | v => v
  let pr ← priority_to_beads (mget td "priority" (.str "medium"))
  let st ← status_to_beads (mget td "status" (.str "pending"))
  .ok { id := task_key, var_name := var, name := nm,
        description := mget td "description" (.str ""),
        priority := pr, status := st,
        dependencies := mget td "dependencies" (.seq []),
        label := label,
        references := mget td "references" (.seq []) }

/-- The inner task loop of shape 3 (lines 124-146): entries whose value is not
a mapping are skipped (continue at line 125-126). -/
def shape3_tasksLoop (label : String) :
    List (String × Yaml) → List TaskRec → List (String × String) →
    Except String (List TaskRec × List (String × String))
  | [], acc, im => .ok (acc, im)
  | (k, v) :: ts, acc, im =>
    match v with
    | .map td => do
      let tk ← shape3_task label k td
      shape3_tasksLoop label ts (acc ++ [tk]) (updIns im tk.id tk.var_name)
    | _ => shape3_tasksLoop label ts acc im

/-- The phase loop of shape 3 (lines 108-146): iterates the sorted phase keys;
a key whose value is not a mapping is skipped (continue at line 110-111);
tasks come from the "tasks" dict when truthy, else from the direct child
mappings whose key is not a metadata field name. -/
def shape3_phases (dm : List (String × Yaml)) :
    List String → List TaskRec → List (String × String) →
    Except String (List TaskRec × List (String × String))
  | [], acc, im => .ok (acc, im)
  | k :: ks, acc, im =>
    match List.lookup k dm with
    | none => .error "KeyError"
    | some pdY =>
      match pdY with
      | .map pd => do
        let s ← asStr (mget pd "name" (.str k))
        let label := phaseLabel s
        let pt := mget pd "tasks" (.map [])
        let items ← if truthy pt then pyItems pt
                    else .ok (pd.filter (fun e => e.2.isMapB && !(metaKeys.contains e.1)))
        let pair ← shape3_tasksLoop label items acc im
        shape3_phases dm ks pair.1 pair.2
      | _ => shape3_phases dm ks acc im

/-- The body of parse_tasks_yaml (lines 79-202) on a document whose top level
is a mapping, following the statement order of the source: metadata and
project name (lines 86-89), the phase-name table (lines 92-97), the phase-key
scan (line 100), the nested-tasks test (line 103), the top-level tasks value
(line 104), then the three-way shape dispatch (lines 106, 148, 169). -/
def parseCore (dm : List (String × Yaml)) : Except String ParseResult := do
  let metadata0 := mget dm "metadata" (.map [])
  let metadata :=
    if truthy metadata0 = false then
      match List.lookup "project" dm with
      | some v => if v.isMapB then v else metadata0
      | none => metadata0
    else metadata0
  let md ← asMap metadata
  let project_name := mget md "project" (mget md "project_name" (mget md "name" (.str "unknown")))
  let phaseList ← pyIter (mget dm "phases" (.seq []))
  let phase_names ← buildPhaseNames 0 phaseList []
  let phase_keys := phaseKeysOf dm
  let has_nested ← anyNestedTasks phaseList
  let top := mget dm "tasks" (.seq [])
  let pair ←
    if phase_keys.isEmpty = false then
      shape3_phases dm (sortStr phase_keys) [] []
    else if has_nested then
      shape1_phases 0 phaseList [] []
    else if truthy top then do
      let ts ← pyIter top
      shape2_tasksLoop phase_names ts [] []
    else .ok ([], [])
  .ok { project := project_name, metadata := metadata, tasks := pair.1, task_id_map := pair.2 }

/-- Embeds parse_tasks_yaml: a document whose top level is not a mapping
makes the first attribute access data.get raise AttributeError. -/
def parse_tasks_yaml : Yaml → Except String ParseResult
  | .map dm => parseCore dm
  | _ => .error "AttributeError"

/-- Character-wise specification of the reference token as the claim states
it: upper-case the id and turn every hyphen and every colon into an
underscore, after the fixed marker.  Upper-casing never produces a hyphen or
colon, so the composition of upper-casing with the two replacements acts
independently on each character. -/
def refTokenBoth (id : String) : String :=
  "BEAD_" ++ String.mk (id.toList.map (fun c => if c = '-' ∨ c = ':' then '_' else pyUpperChar c))

/-- Character-wise reference token that only maps hyphens to underscores,
leaving colons alone (the variant computed in shapes 1 and 2). -/
def refTokenHyphen (id : String) : String :=
  "BEAD_" ++ String.mk (id.toList.map (fun c => if c = '-' then '_' else pyUpperChar c))

/-- A task node with no explicit id field: either not a mapping at all, or a
mapping without an "id" key (used to state the id-synthesis claim). -/
def noIdTask : Yaml → Bool
  | .map td => (td.lookup "id").isNone
  | _ => true

/-- A phase node none of whose iterated tasks has an explicit id field (used
to state the id-synthesis claim for the nested-under-phases shape). -/
def noIdPhase : Yaml → Bool
  | .map pd =>
    (match pyIter (mget pd "tasks" (Yaml.seq [])) with
     | .ok ts => ts.all noIdTask
     | .error _ => true)
  | _ => true

/-- C1 counterexample: a document that matches both the nested-under-phases
shape (its phase has a truthy tasks list holding task x) and the
phase-prefixed-keys shape (key phase1_s holding task y).  The claimed
priority order would extract x from the phases entry; the code extracts y,
because the phase-key shape is dispatched first. -/
theorem c1_counterexample :
    (parse_tasks_yaml (Yaml.map [("phases", Yaml.seq [Yaml.map [("name", Yaml.str "alpha"),
        ("tasks", Yaml.seq [Yaml.map [("id", Yaml.str "x")]])]]),
      ("phase1_s", Yaml.map [("tasks", Yaml.map [("y", Yaml.map [])])])])).map
      (fun r => r.tasks.map (fun t => t.id)) = .ok ["y"]
    ∧ anyNestedTasks [Yaml.map [("name", Yaml.str "alpha"),
        ("tasks", Yaml.seq [Yaml.map [("id", Yaml.str "x")]])]] = .ok true
    ∧ (["y"] : List String) ≠ ["x"] := ⟨rfl, rfl, by decide⟩

/-- C2 counterexample: a top-level mapping whose phases entry contains the
non-mapping 3.  The claim says such a malformed phase entry is silently
skipped; the code raises AttributeError at phase.get in the phase-name loop
(line 95), so extraction is not total over top-level mappings. -/
theorem c2_counterexample :
    parse_tasks_yaml (Yaml.map [("phases", Yaml.seq [Yaml.int 3])]) = .error "AttributeError" := rfl

/-- C3 counterexample: in the nested-under-phases shape a 150-character task
name is kept verbatim (length 150, not the claimed 103): the truncation of
lines 132-134 exists only in the phase-prefixed-keys shape. -/
theorem c3_counterexample :
    (parse_tasks_yaml (Yaml.map [("phases", Yaml.seq [Yaml.map [("name", Yaml.str "p"),
        ("tasks", Yaml.seq [Yaml.map [("id", Yaml.str "t"),
          ("name", Yaml.str (String.mk (List.replicate 150 'a')))]])]])])).map
      (fun r => r.tasks.map (fun t => t.name))
      = .ok [Yaml.str (String.mk (List.replicate 150 'a'))]
    ∧ (String.mk (List.replicate 150 'a')).length = 150
    ∧ (150 : Nat) ≠ 103 := ⟨rfl, rfl, by decide⟩

/-- C4 counterexample: in the nested-under-phases shape the task id a:b
produces the reference token BEAD_A:B -- the colon is not replaced (line 156
only replaces hyphens), contradicting the claim that every shape replaces
both hyphens and colons. -/
theorem c4_counterexample :
    (parse_tasks_yaml (Yaml.map [("phases", Yaml.seq [Yaml.map [("name", Yaml.str "p"),
        ("tasks", Yaml.seq [Yaml.map [("id", Yaml.str "a:b")]])]])])).map
      (fun r => r.tasks.map (fun t => t.var_name)) = .ok ["BEAD_A:B"]
    ∧ ("BEAD_A:B" : String) ≠ "BEAD_A_B" := ⟨rfl, by decide⟩

/-- C5 counterexample: on the claimed scenario document the extracted label
is the slug of the text before the colon of "Phase 1: Setup" with the
"Phase " prefix removed, namely "1" -- not "setup" as claimed. -/
theorem c5_counterexample :
    (parse_tasks_yaml (Yaml.map [("phases", Yaml.seq [Yaml.map [("name", Yaml.str "Phase 1: Setup"),
        ("tasks", Yaml.seq [Yaml.map [("id", Yaml.str "a"), ("priority", Yaml.str "High"),
          ("dependencies", Yaml.seq [])]])]])])).map
      (fun r => r.tasks.map (fun t => (t.id, t.priority, t.status, t.label)))
      = .ok [("a", 1, "open", "1")]
    ∧ ("1" : String) ≠ "setup" := ⟨rfl, by decide⟩

/-- C5 (amended): the scenario document yields exactly one task record with
id a, priority 1, status open -- and label "1" (slug of the text before the
first colon after stripping the "Phase " prefix), not "setup". -/
theorem c5_scenario :
    parse_tasks_yaml (Yaml.map [("phases", Yaml.seq [Yaml.map [("name", Yaml.str "Phase 1: Setup"),
        ("tasks", Yaml.seq [Yaml.map [("id", Yaml.str "a"), ("priority", Yaml.str "High"),
          ("dependencies", Yaml.seq [])]])]])])
      = .ok ⟨Yaml.str "unknown", Yaml.map [],
          [⟨"a", "BEAD_A", Yaml.str "a", Yaml.str "", 1, "open", Yaml.seq [], "1", Yaml.seq []⟩],
          [("a", "BEAD_A")]⟩ := rfl

/-- C6 counterexample: a non-string priority value does not default to 2 --
priority.lower() raises AttributeError (here on the integer 5), and a run
containing such a task fails instead of producing a record. -/
theorem c6_counterexample :
    priority_to_beads (Yaml.int 5) = .error "AttributeError"
    ∧ parse_tasks_yaml (Yaml.map [("tasks", Yaml.seq [Yaml.map [("id", Yaml.str "a"),
        ("priority", Yaml.int 5)]])]) = .error "AttributeError" := ⟨rfl, rfl⟩

/-- C7 counterexample: a non-string status value does not default to open --
status.lower() raises AttributeError (here on the integer 1), and a run
containing such a task fails instead of producing a record. -/
theorem c7_counterexample :
    status_to_beads (Yaml.int 1) = .error "AttributeError"
    ∧ parse_tasks_yaml (Yaml.map [("tasks", Yaml.seq [Yaml.map [("id", Yaml.str "a"),
        ("status", Yaml.int 1)]])]) = .error "AttributeError" := ⟨rfl, rfl⟩

@[simp] theorem ebind_ok {α β : Type} (a : α) (f : α → Except String β) :
    (Except.ok a >>= f) = f a := rfl

@[simp] theorem ebind_error {α β : Type} (e : String) (f : α → Except String β) :
    ((Except.error e : Except String α) >>= f) = Except.error e := rfl

theorem charToNat_ofNat (n : Nat) (h : n < 55296) : (Char.ofNat n).toNat = n := by
  unfold Char.ofNat
  rw [dif_pos (Or.inl h)]
  simp [Char.ofNatAux, Char.toNat, UInt32.toNat, BitVec.toNat_ofNatLt]

theorem pyLowerChar_pyUpperChar (c : Char) : pyLowerChar (pyUpperChar c) = pyLowerChar c := by
  unfold pyUpperChar pyLowerChar
  by_cases h : 97 ≤ c.toNat ∧ c.toNat ≤ 122
  · rw [if_pos h]
    have ht : (Char.ofNat (c.toNat - 32)).toNat = c.toNat - 32 := charToNat_ofNat _ (by omega)
    rw [if_pos (by omega), if_neg (by omega), ht]
    have h2 : c.toNat - 32 + 32 = c.toNat := by omega
    rw [h2, Char.ofNat_toNat]
  · rw [if_neg h]

theorem pyLower_pyUpper (s : String) : pyLower (pyUpper s) = pyLower s := by
  unfold pyLower pyUpper
  cases s with
  | mk data =>
    show String.mk (List.map pyLowerChar (List.map pyUpperChar data)) = _
    rw [List.map_map]
    exact congrArg String.mk (List.map_congr_left (fun c _ => pyLowerChar_pyUpperChar c))

/-- C6 (amended): priority normalization is total and case-insensitive on
strings -- critical, high, medium, low map to 0-3 and every other string to 2
-- and an absent value yields 2 through the caller passing the default
"medium"; but a non-string value raises AttributeError instead of mapping to
2, failing the run. -/
theorem c6_amended :
    (∀ s : String, priority_to_beads (Yaml.str s)
        = .ok (if pyLower s = "critical" then 0 else if pyLower s = "high" then 1
               else if pyLower s = "medium" then 2 else if pyLower s = "low" then 3 else 2))
    ∧ (∀ s : String, priority_to_beads (Yaml.str (pyUpper s)) = priority_to_beads (Yaml.str s))
    ∧ (∀ v : Yaml, v.isStrB = false → priority_to_beads v = .error "AttributeError")
    ∧ (∀ (td : List (String × Yaml)) (label : String) (n : Nat) (tk : TaskRec),
        td.lookup "priority" = none → shape1_task label n (Yaml.map td) = .ok tk →
        tk.priority = 2) := by
  refine ⟨fun s => rfl, fun s => ?_, fun v hv => ?_, fun td label n tk hpri h => ?_⟩
  · show Except.ok _ = Except.ok _
    rw [pyLower_pyUpper]
  · cases v <;> first | rfl | simp [Yaml.isStrB] at hv
  · simp only [shape1_task, asMap, ebind_ok,
      show mget td "priority" (Yaml.str "medium") = Yaml.str "medium" from by simp [mget, hpri],
      show priority_to_beads (Yaml.str "medium") = Except.ok 2 from rfl] at h
    rcases e1 : asStr (mget td "id" (Yaml.str ("task-" ++ toString n))) with a | tid <;>
      rw [e1] at h
    · simp at h
    · simp only [ebind_ok] at h
      rcases e2 : status_to_beads (mget td "status" (Yaml.str "pending")) with a | st <;>
        rw [e2] at h
      · simp at h
      · simp only [ebind_ok, Except.ok.injEq] at h
        rw [← h]

/-- Witness for c6_amended at concrete inputs. -/
theorem c6_amended_witness :
    priority_to_beads (Yaml.str (pyUpper "high")) = priority_to_beads (Yaml.str "high")
    ∧ priority_to_beads (Yaml.bool true) = Except.error "AttributeError"
    ∧ (⟨"a", "BEAD_A", Yaml.str "a", Yaml.str "", 2, "open", Yaml.seq [], "l",
        Yaml.seq []⟩ : TaskRec).priority = 2 :=
  ⟨c6_amended.2.1 "high", c6_amended.2.2.1 (Yaml.bool true) rfl,
   c6_amended.2.2.2 [("id", Yaml.str "a")] "l" 0 _ rfl rfl⟩

/-- C7 (amended): status normalization is total and case-insensitive on
strings -- pending maps to open, the two in-progress spellings to
in_progress, completed and done to closed, every other string to open -- and
an absent value yields open through the caller passing the default
"pending"; but a non-string value raises AttributeError instead of mapping
to open, failing the run. -/
theorem c7_amended :
    (∀ s : String, status_to_beads (Yaml.str s)
        = .ok (if pyLower s = "pending" then "open"
               else if pyLower s = "in-progress" then "in_progress"
               else if pyLower s = "in_progress" then "in_progress"
               else if pyLower s = "completed" then "closed"
               else if pyLower s = "done" then "closed" else "open"))
    ∧ (∀ s : String, status_to_beads (Yaml.str (pyUpper s)) = status_to_beads (Yaml.str s))
    ∧ (∀ v : Yaml, v.isStrB = false → status_to_beads v = .error "AttributeError")
    ∧ (∀ (td : List (String × Yaml)) (label : String) (n : Nat) (tk : TaskRec),
        td.lookup "status" = none → shape1_task label n (Yaml.map td) = .ok tk →
        tk.status = "open") := by
  refine ⟨fun s => rfl, fun s => ?_, fun v hv => ?_, fun td label n tk hst h => ?_⟩
  · show Except.ok _ = Except.ok _
    rw [pyLower_pyUpper]
  · cases v <;> first | rfl | simp [Yaml.isStrB] at hv
  · simp only [shape1_task, asMap, ebind_ok,
      show mget td "status" (Yaml.str "pending") = Yaml.str "pending" from by simp [mget, hst],
      show status_to_beads (Yaml.str "pending") = Except.ok "open" from rfl] at h
    rcases e1 : asStr (mget td "id" (Yaml.str ("task-" ++ toString n))) with a | tid <;>
      rw [e1] at h
    · simp at h
    · simp only [ebind_ok] at h
      rcases e2 : priority_to_beads (mget td "priority" (Yaml.str "medium")) with a | pr <;>
        rw [e2] at h
      · simp at h
      · simp only [ebind_ok, Except.ok.injEq] at h
        rw [← h]

/-- Witness for c7_amended at concrete inputs. -/
theorem c7_amended_witness :
    status_to_beads (Yaml.str (pyUpper "done")) = status_to_beads (Yaml.str "done")
    ∧ status_to_beads (Yaml.null) = Except.error "AttributeError"
    ∧ (⟨"a", "BEAD_A", Yaml.str "a", Yaml.str "", 2, "open", Yaml.seq [], "l",
        Yaml.seq []⟩ : TaskRec).status = "open" :=
  ⟨c7_amended.2.1 "done", c7_amended.2.2.1 Yaml.null rfl,
   c7_amended.2.2.2 [("id", Yaml.str "a")] "l" 0 _ rfl rfl⟩

theorem except_ok_bind {α β : Type} {A : Except String α} {f : α → Except String β} {c : β}
    (h : (A >>= f) = .ok c) : ∃ a, A = .ok a ∧ f a = .ok c := by
  cases A with
  | error e => simp at h
  | ok a => exact ⟨a, rfl, h⟩

theorem mget_some {m : List (String × Yaml)} {k : String} {v : Yaml}
    (h : List.lookup k m = some v) (d : Yaml) : mget m k d = v := by
  simp [mget, h]

theorem pyUpperChar_ne (c d : Char) (hd : d.toNat < 65 ∨ 90 < d.toNat) (hcd : c ≠ d) :
    pyUpperChar c ≠ d := by
  unfold pyUpperChar
  by_cases h : 97 ≤ c.toNat ∧ c.toNat ≤ 122
  · rw [if_pos h]
    intro heq
    have h2 := congrArg Char.toNat heq
    rw [charToNat_ofNat _ (by omega)] at h2
    omega
  · rw [if_neg h]
    exact hcd

theorem replace_upper_eq_both (s : String) :
    "BEAD_" ++ pyReplaceChar ':' '_' (pyReplaceChar '-' '_' (pyUpper s)) = refTokenBoth s := by
  unfold pyReplaceChar pyUpper refTokenBoth
  cases s with
  | mk data =>
    show "BEAD_" ++ String.mk (List.map _ (List.map _ (List.map _ data))) = _
    rw [List.map_map, List.map_map]
    refine congrArg (fun t => "BEAD_" ++ String.mk t) (List.map_congr_left (fun c _ => ?_))
    show (if (if pyUpperChar c = '-' then '_' else pyUpperChar c) = ':' then '_'
          else if pyUpperChar c = '-' then '_' else pyUpperChar c)
        = if c = '-' ∨ c = ':' then '_' else pyUpperChar c
    by_cases h1 : c = '-'
    · subst h1
      rfl
    · by_cases h2 : c = ':'
      · subst h2
        rfl
      · have n1 : pyUpperChar c ≠ '-' := pyUpperChar_ne c '-' (by left; decide) h1
        have n2 : pyUpperChar c ≠ ':' := pyUpperChar_ne c ':' (by left; decide) h2
        rw [if_neg n1, if_neg n2, if_neg (by simp [h1, h2])]

theorem replace_upper_eq_hyphen (s : String) :
    "BEAD_" ++ pyReplaceChar '-' '_' (pyUpper s) = refTokenHyphen s := by
  unfold pyReplaceChar pyUpper refTokenHyphen
  cases s with
  | mk data =>
    show "BEAD_" ++ String.mk (List.map _ (List.map _ data)) = _
    rw [List.map_map]
    refine congrArg (fun t => "BEAD_" ++ String.mk t) (List.map_congr_left (fun c _ => ?_))
    show (if pyUpperChar c = '-' then '_' else pyUpperChar c)
        = if c = '-' then '_' else pyUpperChar c
    by_cases h1 : c = '-'
    · subst h1
      rfl
    · rw [if_neg (pyUpperChar_ne c '-' (by left; decide) h1), if_neg h1]

/-- C4 (amended): the reference token is the task id upper-cased with a
BEAD_ marker; in the phase-prefixed-keys shape both hyphens and colons become
underscores, but in the nested-under-phases and top-level-task-list shapes
only hyphens are replaced and colons survive (refTokenBoth "a:b" is BEAD_A_B
while refTokenHyphen "a:b" is BEAD_A:B). -/
theorem c4_reference_token :
    (∀ (label key : String) (td : List (String × Yaml)) (tk : TaskRec),
        shape3_task label key td = .ok tk → tk.var_name = refTokenBoth tk.id)
    ∧ (∀ (label : String) (n : Nat) (t : Yaml) (tk : TaskRec),
        shape1_task label n t = .ok tk → tk.var_name = refTokenHyphen tk.id)
    ∧ (∀ (pn : List (Scalar × String)) (n : Nat) (t : Yaml) (tk : TaskRec),
        shape2_task pn n t = .ok tk → tk.var_name = refTokenHyphen tk.id)
    ∧ refTokenBoth "a:b" = "BEAD_A_B" ∧ refTokenHyphen "a:b" = "BEAD_A:B" := by
  refine ⟨fun label key td tk h => ?_, fun label n t tk h => ?_, fun pn n t tk h => ?_,
    by decide, by decide⟩
  · simp only [shape3_task] at h
    obtain ⟨pr, hpr, h⟩ := except_ok_bind h
    obtain ⟨st, hst, h⟩ := except_ok_bind h
    rw [Except.ok.injEq] at h
    rw [← h]
    exact replace_upper_eq_both key
  · cases t with
    | map td =>
      simp only [shape1_task] at h
      obtain ⟨td2, htd2, h⟩ := except_ok_bind h
      obtain ⟨tid, hid, h⟩ := except_ok_bind h
      obtain ⟨pr, hpr, h⟩ := except_ok_bind h
      obtain ⟨st, hst, h⟩ := except_ok_bind h
      rw [Except.ok.injEq] at h
      rw [← h]
      exact replace_upper_eq_hyphen tid
    | null => simp [shape1_task, asMap] at h
    | bool b => simp [shape1_task, asMap] at h
    | int i => simp [shape1_task, asMap] at h
    | str s => simp [shape1_task, asMap] at h
    | seq l => simp [shape1_task, asMap] at h
  · cases t with
    | map td =>
      simp only [shape2_task] at h
      obtain ⟨td2, htd2, h⟩ := except_ok_bind h
      obtain ⟨tid, hid, h⟩ := except_ok_bind h
      by_cases hc : truthy (mget td2 "phase" (Yaml.str "")) = true
      · rw [if_pos hc] at h
        obtain ⟨sc, hsc, h⟩ := except_ok_bind h
        cases hl : List.lookup sc pn with
        | none =>
          simp only [hl] at h
          obtain ⟨y, hy, h⟩ := except_ok_bind h
          obtain ⟨pr, hpr, h⟩ := except_ok_bind h
          obtain ⟨st, hst, h⟩ := except_ok_bind h
          rw [Except.ok.injEq] at h
          rw [← h]
          exact replace_upper_eq_hyphen tid
        | some lbl =>
          simp only [hl] at h
          obtain ⟨y, hy, h⟩ := except_ok_bind h
          obtain ⟨pr, hpr, h⟩ := except_ok_bind h
          obtain ⟨st, hst, h⟩ := except_ok_bind h
          rw [Except.ok.injEq] at h
          rw [← h]
          exact replace_upper_eq_hyphen tid
      · rw [if_neg hc] at h
        obtain ⟨y, hy, h⟩ := except_ok_bind h
        obtain ⟨pr, hpr, h⟩ := except_ok_bind h
        obtain ⟨st, hst, h⟩ := except_ok_bind h
        rw [Except.ok.injEq] at h
        rw [← h]
        exact replace_upper_eq_hyphen tid
    | null => simp [shape2_task, asMap] at h
    | bool b => simp [shape2_task, asMap] at h
    | int i => simp [shape2_task, asMap] at h
    | str s => simp [shape2_task, asMap] at h
    | seq l => simp [shape2_task, asMap] at h

/-- C3 (amended): the 100-character truncation with a 3-character ellipsis
applies only to task records of the phase-prefixed-keys shape (and only when
the looked-up name value is a string); in the nested-under-phases and
top-level-task-list shapes the name is copied unchanged whatever its
length. -/
theorem c3_truncation :
    (∀ (label key : String) (td : List (String × Yaml)) (s : String) (tk : TaskRec),
        mget td "name" (mget td "description" (Yaml.str key)) = Yaml.str s →
        100 < s.length →
        shape3_task label key td = .ok tk →
        tk.name = Yaml.str (String.mk (s.toList.take 100) ++ "..."))
    ∧ (∀ (label key : String) (td : List (String × Yaml)) (s : String) (tk : TaskRec),
        mget td "name" (mget td "description" (Yaml.str key)) = Yaml.str s →
        s.length ≤ 100 →
        shape3_task label key td = .ok tk →
        tk.name = Yaml.str s)
    ∧ (∀ (label : String) (n : Nat) (td : List (String × Yaml)) (s : String) (tk : TaskRec),
        td.lookup "name" = some (Yaml.str s) →
        shape1_task label n (Yaml.map td) = .ok tk →
        tk.name = Yaml.str s)
    ∧ (∀ (pn : List (Scalar × String)) (n : Nat) (td : List (String × Yaml)) (s : String)
        (tk : TaskRec),
        td.lookup "name" = some (Yaml.str s) →
        shape2_task pn n (Yaml.map td) = .ok tk →
        tk.name = Yaml.str s) := by
  refine ⟨fun label key td s tk hm hlen h => ?_, fun label key td s tk hm hlen h => ?_,
    fun label n td s tk hn h => ?_, fun pn n td s tk hn h => ?_⟩
  · simp only [shape3_task, hm, if_pos hlen] at h
    obtain ⟨pr, hpr, h⟩ := except_ok_bind h
    obtain ⟨st, hst, h⟩ := except_ok_bind h
    rw [Except.ok.injEq] at h
    rw [← h]
  · simp only [shape3_task, hm, if_neg (by omega : ¬(100 < s.length))] at h
    obtain ⟨pr, hpr, h⟩ := except_ok_bind h
    obtain ⟨st, hst, h⟩ := except_ok_bind h
    rw [Except.ok.injEq] at h
    rw [← h]
  · simp only [shape1_task, asMap, ebind_ok, mget_some hn] at h
    obtain ⟨tid, hid, h⟩ := except_ok_bind h
    obtain ⟨pr, hpr, h⟩ := except_ok_bind h
    obtain ⟨st, hst, h⟩ := except_ok_bind h
    rw [Except.ok.injEq] at h
    rw [← h]
  · simp only [shape2_task, asMap, ebind_ok, mget_some hn] at h
    obtain ⟨tid, hid, h⟩ := except_ok_bind h
    by_cases hc : truthy (mget td "phase" (Yaml.str "")) = true
    · rw [if_pos hc] at h
      obtain ⟨sc, hsc, h⟩ := except_ok_bind h
      cases hl : List.lookup sc pn with
      | none =>
        simp only [hl] at h
        obtain ⟨pr, hpr, h⟩ := except_ok_bind h
        obtain ⟨st, hst, h⟩ := except_ok_bind h
        rw [Except.ok.injEq] at h
        rw [← h]
      | some lbl =>
        simp only [hl] at h
        obtain ⟨pr, hpr, h⟩ := except_ok_bind h
        obtain ⟨st, hst, h⟩ := except_ok_bind h
        rw [Except.ok.injEq] at h
        rw [← h]
    · rw [if_neg hc] at h
      obtain ⟨pr, hpr, h⟩ := except_ok_bind h
      obtain ⟨st, hst, h⟩ := except_ok_bind h
      rw [Except.ok.injEq] at h
      rw [← h]

set_option maxRecDepth 4000 in
/-- Witness for c3_truncation at concrete inputs. -/
theorem c3_truncation_witness :
    (⟨"k", "BEAD_K", Yaml.str (String.mk (List.replicate 100 'a') ++ "..."), Yaml.str "", 2,
      "open", Yaml.seq [], "l", Yaml.seq []⟩ : TaskRec).name
      = Yaml.str (String.mk ((String.mk (List.replicate 150 'a')).toList.take 100) ++ "...")
    ∧ (⟨"k", "BEAD_K", Yaml.str "n", Yaml.str "", 2, "open", Yaml.seq [], "l",
        Yaml.seq []⟩ : TaskRec).name = Yaml.str "n"
    ∧ (⟨"t", "BEAD_T", Yaml.str "nm", Yaml.str "", 2, "open", Yaml.seq [], "l",
        Yaml.seq []⟩ : TaskRec).name = Yaml.str "nm"
    ∧ (⟨"t", "BEAD_T", Yaml.str "nm", Yaml.str "", 2, "open", Yaml.seq [], "t",
        Yaml.seq []⟩ : TaskRec).name = Yaml.str "nm" :=
  ⟨c3_truncation.1 "l" "k" [("name", Yaml.str (String.mk (List.replicate 150 'a')))]
      (String.mk (List.replicate 150 'a')) _ rfl (by decide) rfl,
   c3_truncation.2.1 "l" "k" [("name", Yaml.str "n")] "n" _ rfl (by decide) rfl,
   c3_truncation.2.2.1 "l" 0 [("id", Yaml.str "t"), ("name", Yaml.str "nm")] "nm" _ rfl rfl,
   c3_truncation.2.2.2 [] 0 [("id", Yaml.str "t"), ("name", Yaml.str "nm")] "nm" _ rfl rfl⟩

/-- Witness for c4_reference_token at concrete inputs. -/
theorem c4_reference_token_witness :
    (⟨"k", "BEAD_K", Yaml.str "k", Yaml.str "", 2, "open", Yaml.seq [], "l",
        Yaml.seq []⟩ : TaskRec).var_name
      = refTokenBoth (⟨"k", "BEAD_K", Yaml.str "k", Yaml.str "", 2, "open", Yaml.seq [], "l",
        Yaml.seq []⟩ : TaskRec).id
    ∧ (⟨"a-b", "BEAD_A_B", Yaml.str "a-b", Yaml.str "", 2, "open", Yaml.seq [], "l",
        Yaml.seq []⟩ : TaskRec).var_name
      = refTokenHyphen (⟨"a-b", "BEAD_A_B", Yaml.str "a-b", Yaml.str "", 2, "open", Yaml.seq [],
        "l", Yaml.seq []⟩ : TaskRec).id
    ∧ (⟨"x", "BEAD_X", Yaml.str "x", Yaml.str "", 2, "open", Yaml.seq [], "x",
        Yaml.seq []⟩ : TaskRec).var_name
      = refTokenHyphen (⟨"x", "BEAD_X", Yaml.str "x", Yaml.str "", 2, "open", Yaml.seq [], "x",
        Yaml.seq []⟩ : TaskRec).id :=
  ⟨c4_reference_token.1 "l" "k" [] _ rfl,
   c4_reference_token.2.1 "l" 0 (Yaml.map [("id", Yaml.str "a-b")]) _ rfl,
   c4_reference_token.2.2.1 [] 0 (Yaml.map [("id", Yaml.str "x")]) _ rfl⟩

/-- C2 (amended): silent skipping of malformed nested nodes happens only in
the phase-prefixed-keys shape -- a non-mapping phase value or task value
there contributes nothing and the run succeeds; but in the phase-metadata
prelude and the other two shapes a non-mapping phase or task entry raises
AttributeError, so extraction is not total over top-level mappings; the last
two conjuncts exhibit the raise for a non-mapping task entry in the
nested-under-phases shape and in the top-level-task-list shape. -/
theorem c2_skip_only_shape3 :
    (∀ v : Yaml, v.isMapB = false →
      ∃ r, parse_tasks_yaml (Yaml.map [("phase1x", v)]) = .ok r ∧ r.tasks = [])
    ∧ (∀ v : Yaml, v.isMapB = false →
      ∃ r, parse_tasks_yaml (Yaml.map [("phase1x",
          Yaml.map [("tasks", Yaml.map [("t", v)])])]) = .ok r ∧ r.tasks = [])
    ∧ (∀ v : Yaml, v.isMapB = false →
      parse_tasks_yaml (Yaml.map [("phases", Yaml.seq [Yaml.map [("name", Yaml.str "p"),
        ("tasks", Yaml.seq [v])]])]) = .error "AttributeError")
    ∧ (∀ v : Yaml, v.isMapB = false →
      parse_tasks_yaml (Yaml.map [("tasks", Yaml.seq [v])]) = .error "AttributeError") := by
  refine ⟨fun v hv => ?_, fun v hv => ?_, fun v hv => ?_, fun v hv => ?_⟩
  · cases v with
    | map m => simp [Yaml.isMapB] at hv
    | null => exact ⟨_, rfl, rfl⟩
    | bool b => exact ⟨_, rfl, rfl⟩
    | int n => exact ⟨_, rfl, rfl⟩
    | str s => exact ⟨_, rfl, rfl⟩
    | seq l => exact ⟨_, rfl, rfl⟩
  · cases v with
    | map m => simp [Yaml.isMapB] at hv
    | null => exact ⟨_, rfl, rfl⟩
    | bool b => exact ⟨_, rfl, rfl⟩
    | int n => exact ⟨_, rfl, rfl⟩
    | str s => exact ⟨_, rfl, rfl⟩
    | seq l => exact ⟨_, rfl, rfl⟩
  · cases v with
    | map m => simp [Yaml.isMapB] at hv
    | null => rfl
    | bool b => rfl
    | int n => rfl
    | str s => rfl
    | seq l => rfl
  · cases v with
    | map m => simp [Yaml.isMapB] at hv
    | null => rfl
    | bool b => rfl
    | int n => rfl
    | str s => rfl
    | seq l => rfl

/-- Witness for c2_skip_only_shape3 at the concrete non-mapping value 3. -/
theorem c2_skip_only_shape3_witness :
    (∃ r, parse_tasks_yaml (Yaml.map [("phase1x", Yaml.int 3)]) = .ok r ∧ r.tasks = [])
    ∧ (∃ r, parse_tasks_yaml (Yaml.map [("phase1x", Yaml.map [("tasks",
        Yaml.map [("t", Yaml.int 3)])])]) = .ok r ∧ r.tasks = [])
    ∧ parse_tasks_yaml (Yaml.map [("phases", Yaml.seq [Yaml.map [("name", Yaml.str "p"),
        ("tasks", Yaml.seq [Yaml.int 3])]])]) = .error "AttributeError"
    ∧ parse_tasks_yaml (Yaml.map [("tasks", Yaml.seq [Yaml.int 3])]) = .error "AttributeError" :=
  ⟨c2_skip_only_shape3.1 (Yaml.int 3) rfl, c2_skip_only_shape3.2.1 (Yaml.int 3) rfl,
   c2_skip_only_shape3.2.2.1 (Yaml.int 3) rfl, c2_skip_only_shape3.2.2.2 (Yaml.int 3) rfl⟩

/-- C1 (amended): shape detection tries the three shapes in the priority
order (1) phase-prefixed top-level keys, then (2) nested-under-phases, then
(3) top-level task list; the first matching shape wins and all task records
of a run come from that single shape, never a union of shapes.  (The claimed
order -- nested-under-phases first -- is wrong; everything else holds.) -/
theorem c1_first_shape_wins (dm : List (String × Yaml)) (r : ParseResult)
    (pl : List Yaml) (hn : Bool)
    (h : parse_tasks_yaml (Yaml.map dm) = .ok r)
    (hpl : pyIter (mget dm "phases" (Yaml.seq [])) = .ok pl)
    (hb : anyNestedTasks pl = .ok hn) :
    (phaseKeysOf dm ≠ [] →
      ∃ im, shape3_phases dm (sortStr (phaseKeysOf dm)) [] [] = .ok (r.tasks, im))
    ∧ (phaseKeysOf dm = [] → hn = true →
      ∃ im, shape1_phases 0 pl [] [] = .ok (r.tasks, im))
    ∧ (phaseKeysOf dm = [] → hn = false → truthy (mget dm "tasks" (Yaml.seq [])) = true →
      ∃ pn ts im, buildPhaseNames 0 pl [] = .ok pn
        ∧ pyIter (mget dm "tasks" (Yaml.seq [])) = .ok ts
        ∧ shape2_tasksLoop pn ts [] [] = .ok (r.tasks, im))
    ∧ (phaseKeysOf dm = [] → hn = false → truthy (mget dm "tasks" (Yaml.seq [])) = false →
      r.tasks = []) := by
  simp only [parse_tasks_yaml, parseCore] at h
  obtain ⟨md, hmd, h⟩ := except_ok_bind h
  obtain ⟨pl2, hpl2, h⟩ := except_ok_bind h
  rw [hpl2] at hpl
  injection hpl with e
  subst e
  obtain ⟨pn, hpn, h⟩ := except_ok_bind h
  obtain ⟨hn2, hhn2, h⟩ := except_ok_bind h
  rw [hhn2] at hb
  injection hb with e
  subst e
  refine ⟨fun h3 => ?_, fun h3 hn1 => ?_, fun h3 hn1 htr => ?_, fun h3 hn1 htr => ?_⟩
  · have he : (phaseKeysOf dm).isEmpty = false := by
      cases hk : phaseKeysOf dm with
      | nil => exact absurd hk h3
      | cons a t => rfl
    rw [if_pos he] at h
    obtain ⟨y, hy, h⟩ := except_ok_bind h
    injection h with e
    rw [← e]
    exact ⟨y.2, hy⟩
  · have he : ¬((phaseKeysOf dm).isEmpty = false) := by
      rw [h3]
      simp
    rw [if_neg he, hn1, if_pos rfl] at h
    obtain ⟨y, hy, h⟩ := except_ok_bind h
    injection h with e
    rw [← e]
    exact ⟨y.2, hy⟩
  · have he : ¬((phaseKeysOf dm).isEmpty = false) := by
      rw [h3]
      simp
    rw [if_neg he, hn1, if_neg (by simp), if_pos htr] at h
    obtain ⟨ts, hts, h⟩ := except_ok_bind h
    obtain ⟨y, hy, h⟩ := except_ok_bind h
    injection h with e
    rw [← e]
    exact ⟨pn, ts, y.2, hpn, hts, hy⟩
  · have he : ¬((phaseKeysOf dm).isEmpty = false) := by
      rw [h3]
      simp
    rw [if_neg he, hn1, if_neg (by simp), if_neg (by rw [htr]; simp)] at h
    rw [ebind_ok] at h
    injection h with e
    rw [← e]

/-- Witness for c1_first_shape_wins on the document of c1_counterexample. -/
theorem c1_first_shape_wins_witness :
    ∃ im, shape3_phases
      [("phases", Yaml.seq [Yaml.map [("name", Yaml.str "alpha"),
          ("tasks", Yaml.seq [Yaml.map [("id", Yaml.str "x")]])]]),
       ("phase1_s", Yaml.map [("tasks", Yaml.map [("y", Yaml.map [])])])]
      (sortStr (phaseKeysOf [("phases", Yaml.seq [Yaml.map [("name", Yaml.str "alpha"),
          ("tasks", Yaml.seq [Yaml.map [("id", Yaml.str "x")]])]]),
       ("phase1_s", Yaml.map [("tasks", Yaml.map [("y", Yaml.map [])])])])) [] []
      = .ok ([⟨"y", "BEAD_Y", Yaml.str "y", Yaml.str "", 2, "open", Yaml.seq [], "phase1-s",
          Yaml.seq []⟩], im) :=
  (c1_first_shape_wins
    [("phases", Yaml.seq [Yaml.map [("name", Yaml.str "alpha"),
        ("tasks", Yaml.seq [Yaml.map [("id", Yaml.str "x")]])]]),
     ("phase1_s", Yaml.map [("tasks", Yaml.map [("y", Yaml.map [])])])]
    ⟨Yaml.str "unknown", Yaml.map [],
      [⟨"y", "BEAD_Y", Yaml.str "y", Yaml.str "", 2, "open", Yaml.seq [], "phase1-s",
        Yaml.seq []⟩], [("y", "BEAD_Y")]⟩
    [Yaml.map [("name", Yaml.str "alpha"),
      ("tasks", Yaml.seq [Yaml.map [("id", Yaml.str "x")]])]] true rfl rfl rfl).1 (by decide)

theorem shape1_task_id_default {label : String} {n : Nat} {t : Yaml} {tk : TaskRec}
    (h : shape1_task label n t = .ok tk) (hid : noIdTask t = true) :
    tk.id = "task-" ++ toString n := by
  cases t with
  | map td =>
    simp only [noIdTask, Option.isNone_iff_eq_none] at hid
    simp only [shape1_task, asMap, ebind_ok, asStr,
      show mget td "id" (Yaml.str ("task-" ++ toString n)) = Yaml.str ("task-" ++ toString n)
        from by simp [mget, hid]] at h
    obtain ⟨pr, hpr, h⟩ := except_ok_bind h
    obtain ⟨st, hst, h⟩ := except_ok_bind h
    injection h with e
    rw [← e]
  | null => simp [shape1_task, asMap] at h
  | bool b => simp [shape1_task, asMap] at h
  | int i => simp [shape1_task, asMap] at h
  | str s => simp [shape1_task, asMap] at h
  | seq l => simp [shape1_task, asMap] at h

theorem shape2_task_id_default {pn : List (Scalar × String)} {n : Nat} {t : Yaml} {tk : TaskRec}
    (h : shape2_task pn n t = .ok tk) (hid : noIdTask t = true) :
    tk.id = "task-" ++ toString n := by
  cases t with
  | map td =>
    simp only [noIdTask, Option.isNone_iff_eq_none] at hid
    simp only [shape2_task, asMap, ebind_ok, asStr,
      show mget td "id" (Yaml.str ("task-" ++ toString n)) = Yaml.str ("task-" ++ toString n)
        from by simp [mget, hid]] at h
    by_cases hc : truthy (mget td "phase" (Yaml.str "")) = true
    · rw [if_pos hc] at h
      obtain ⟨sc, hsc, h⟩ := except_ok_bind h
      cases hl : List.lookup sc pn with
      | none =>
        simp only [hl] at h
        obtain ⟨pr, hpr, h⟩ := except_ok_bind h
        obtain ⟨st, hst, h⟩ := except_ok_bind h
        injection h with e
        rw [← e]
      | some lbl =>
        simp only [hl] at h
        obtain ⟨pr, hpr, h⟩ := except_ok_bind h
        obtain ⟨st, hst, h⟩ := except_ok_bind h
        injection h with e
        rw [← e]
    · rw [if_neg hc] at h
      obtain ⟨pr, hpr, h⟩ := except_ok_bind h
      obtain ⟨st, hst, h⟩ := except_ok_bind h
      injection h with e
      rw [← e]
  | null => simp [shape2_task, asMap] at h
  | bool b => simp [shape2_task, asMap] at h
  | int i => simp [shape2_task, asMap] at h
  | str s => simp [shape2_task, asMap] at h
  | seq l => simp [shape2_task, asMap] at h

theorem shape1_loop_ids (label : String) :
    ∀ (ts : List Yaml) (acc : List TaskRec) (im : List (String × String))
      (res : List TaskRec × List (String × String)),
    shape1_tasksLoop label ts acc im = .ok res → ts.all noIdTask = true →
    ∃ new, res.1 = acc ++ new ∧ new.map (fun tk => tk.id)
      = (List.range new.length).map (fun k => "task-" ++ toString (acc.length + k)) := by
  intro ts
  induction ts with
  | nil =>
    intro acc im res h _
    injection h with e
    exact ⟨[], by rw [← e]; simp, by simp⟩
  | cons t rest ih =>
    intro acc im res h hall
    simp only [List.all_cons, Bool.and_eq_true] at hall
    simp only [shape1_tasksLoop] at h
    obtain ⟨tk, htk, h⟩ := except_ok_bind h
    obtain ⟨new2, hres2, hids2⟩ := ih (acc ++ [tk]) _ res h hall.2
    have hid := shape1_task_id_default htk hall.1
    refine ⟨tk :: new2, ?_, ?_⟩
    · rw [hres2, List.append_assoc]
      rfl
    · simp only [List.map_cons, hid, List.length_cons]
      rw [List.range_succ_eq_map, List.map_cons, List.map_map, hids2]
      refine congrArg₂ List.cons (congrArg (fun m => "task-" ++ toString m) (by omega)) ?_
      refine List.map_congr_left (fun k _ => ?_)
      show "task-" ++ toString ((acc ++ [tk]).length + k) = "task-" ++ toString (acc.length + Nat.succ k)
      exact congrArg (fun m => "task-" ++ toString m) (by simp [List.length_append]; omega)

theorem shape2_loop_ids (pn : List (Scalar × String)) :
    ∀ (ts : List Yaml) (acc : List TaskRec) (im : List (String × String))
      (res : List TaskRec × List (String × String)),
    shape2_tasksLoop pn ts acc im = .ok res → ts.all noIdTask = true →
    ∃ new, res.1 = acc ++ new ∧ new.map (fun tk => tk.id)
      = (List.range new.length).map (fun k => "task-" ++ toString (acc.length + k)) := by
  intro ts
  induction ts with
  | nil =>
    intro acc im res h _
    injection h with e
    exact ⟨[], by rw [← e]; simp, by simp⟩
  | cons t rest ih =>
    intro acc im res h hall
    simp only [List.all_cons, Bool.and_eq_true] at hall
    simp only [shape2_tasksLoop] at h
    obtain ⟨tk, htk, h⟩ := except_ok_bind h
    obtain ⟨new2, hres2, hids2⟩ := ih (acc ++ [tk]) _ res h hall.2
    have hid := shape2_task_id_default htk hall.1
    refine ⟨tk :: new2, ?_, ?_⟩
    · rw [hres2, List.append_assoc]
      rfl
    · simp only [List.map_cons, hid, List.length_cons]
      rw [List.range_succ_eq_map, List.map_cons, List.map_map, hids2]
      refine congrArg₂ List.cons (congrArg (fun m => "task-" ++ toString m) (by omega)) ?_
      refine List.map_congr_left (fun k _ => ?_)
      show "task-" ++ toString ((acc ++ [tk]).length + k) = "task-" ++ toString (acc.length + Nat.succ k)
      exact congrArg (fun m => "task-" ++ toString m) (by simp [List.length_append]; omega)

theorem shape1_phases_ids :
    ∀ (ps : List Yaml) (idx : Nat) (acc : List TaskRec) (im : List (String × String))
      (res : List TaskRec × List (String × String)),
    shape1_phases idx ps acc im = .ok res → ps.all noIdPhase = true →
    ∃ new, res.1 = acc ++ new ∧ new.map (fun tk => tk.id)
      = (List.range new.length).map (fun k => "task-" ++ toString (acc.length + k)) := by
  intro ps
  induction ps with
  | nil =>
    intro idx acc im res h _
    injection h with e
    exact ⟨[], by rw [← e]; simp, by simp⟩
  | cons p rest ih =>
    intro idx acc im res h hall
    simp only [List.all_cons, Bool.and_eq_true] at hall
    simp only [shape1_phases] at h
    obtain ⟨pd, hpd, h⟩ := except_ok_bind h
    cases p with
    | map entries =>
      injection hpd with e
      subst e
      obtain ⟨s, hs, h⟩ := except_ok_bind h
      obtain ⟨ts, hts, h⟩ := except_ok_bind h
      obtain ⟨pair, hpair, h⟩ := except_ok_bind h
      have hallts : ts.all noIdTask = true := by
        have h1 := hall.1
        simp only [noIdPhase, hts] at h1
        exact h1
      obtain ⟨new1, hr1, hi1⟩ := shape1_loop_ids _ ts acc im pair hpair hallts
      obtain ⟨new2, hr2, hi2⟩ := ih (idx + 1) pair.1 pair.2 res h hall.2
      refine ⟨new1 ++ new2, ?_, ?_⟩
      · rw [hr2, hr1, List.append_assoc]
      · rw [List.map_append, hi1, hi2, hr1]
        simp only [List.length_append]
        rw [List.range_add, List.map_append, List.map_map]
        refine congrArg₂ (· ++ ·) rfl (List.map_congr_left (fun k _ => ?_))
        show "task-" ++ toString (acc.length + new1.length + k)
          = "task-" ++ toString (acc.length + (new1.length + k))
        exact congrArg (fun m => "task-" ++ toString m) (by omega)
    | null => simp [asMap] at hpd
    | bool b => simp [asMap] at hpd
    | int i => simp [asMap] at hpd
    | str s2 => simp [asMap] at hpd
    | seq l => simp [asMap] at hpd

/-- C8: in the nested-under-phases and top-level-task-list shapes, every
task lacking an explicit id receives the synthesized id task-k, where k is
the number of task records already in the output list (0-based, counted
across all phases); hence a run whose tasks all lack ids, started from the
empty output list, yields ids task-0, task-1, ... strictly increasing across
sub-collections, as the concrete two-phase document in the last conjunct
shows. -/
theorem c8_id_synthesis :
    (∀ (ps : List Yaml) (idx : Nat) (acc : List TaskRec) (im : List (String × String))
      (res : List TaskRec × List (String × String)),
      shape1_phases idx ps acc im = .ok res → ps.all noIdPhase = true →
      ∃ new, res.1 = acc ++ new ∧ new.map (fun tk => tk.id)
        = (List.range new.length).map (fun k => "task-" ++ toString (acc.length + k)))
    ∧ (∀ (pn : List (Scalar × String)) (ts : List Yaml) (acc : List TaskRec)
      (im : List (String × String)) (res : List TaskRec × List (String × String)),
      shape2_tasksLoop pn ts acc im = .ok res → ts.all noIdTask = true →
      ∃ new, res.1 = acc ++ new ∧ new.map (fun tk => tk.id)
        = (List.range new.length).map (fun k => "task-" ++ toString (acc.length + k)))
    ∧ (parse_tasks_yaml (Yaml.map [("phases", Yaml.seq [
        Yaml.map [("name", Yaml.str "A"), ("tasks", Yaml.seq [Yaml.map [], Yaml.map []])],
        Yaml.map [("name", Yaml.str "B"), ("tasks", Yaml.seq [Yaml.map []])]])])).map
        (fun r => r.tasks.map (fun tk => tk.id)) = .ok ["task-0", "task-1", "task-2"] :=
  ⟨shape1_phases_ids, shape2_loop_ids, rfl⟩

/-- Witness for c8_id_synthesis at concrete inputs (one two-task phase for
shape 1; one id-less task for shape 2). -/
theorem c8_id_synthesis_witness :
    (∃ new, ([⟨"task-0", "BEAD_TASK_0", Yaml.str "task-0", Yaml.str "", 2, "open", Yaml.seq [],
        "a", Yaml.seq []⟩,
      ⟨"task-1", "BEAD_TASK_1", Yaml.str "task-1", Yaml.str "", 2, "open", Yaml.seq [],
        "a", Yaml.seq []⟩] : List TaskRec) = [] ++ new
      ∧ new.map (fun tk => tk.id)
        = (List.range new.length).map
            (fun k => "task-" ++ toString (([] : List TaskRec).length + k)))
    ∧ (∃ new, ([⟨"task-0", "BEAD_TASK_0", Yaml.str "task-0", Yaml.str "", 2, "open", Yaml.seq [],
        "task", Yaml.seq []⟩] : List TaskRec) = [] ++ new
      ∧ new.map (fun tk => tk.id)
        = (List.range new.length).map
            (fun k => "task-" ++ toString (([] : List TaskRec).length + k))) :=
  ⟨c8_id_synthesis.1 [Yaml.map [("name", Yaml.str "A"),
      ("tasks", Yaml.seq [Yaml.map [], Yaml.map []])]] 0 [] []
      ([⟨"task-0", "BEAD_TASK_0", Yaml.str "task-0", Yaml.str "", 2, "open", Yaml.seq [],
          "a", Yaml.seq []⟩,
        ⟨"task-1", "BEAD_TASK_1", Yaml.str "task-1", Yaml.str "", 2, "open", Yaml.seq [],
          "a", Yaml.seq []⟩],
       [("task-0", "BEAD_TASK_0"), ("task-1", "BEAD_TASK_1")]) rfl rfl,
   c8_id_synthesis.2.1 [] [Yaml.map []] [] []
      ([⟨"task-0", "BEAD_TASK_0", Yaml.str "task-0", Yaml.str "", 2, "open", Yaml.seq [],
          "task", Yaml.seq []⟩],
       [("task-0", "BEAD_TASK_0")]) rfl rfl⟩

theorem alnum_ne_dash {c : Char} (h : isLowerAlnum c = true) : c ≠ '-' := by
  intro e
  subst e
  exact absurd h (by decide)

theorem pyLowerChar_fix {c : Char} (h : isLowerAlnum c = true ∨ c = '-') : pyLowerChar c = c := by
  rcases h with h | h
  · unfold pyLowerChar
    rw [if_neg]
    simp only [isLowerAlnum, Bool.or_eq_true, Bool.and_eq_true, decide_eq_true_eq] at h
    omega
  · subst h
    decide

theorem subDash_mem : ∀ (l : List Char) (b : Bool) (c : Char), c ∈ subDash b l →
    isLowerAlnum c = true ∨ c = '-' := by
  intro l
  induction l with
  | nil => intro b c hc; simp [subDash] at hc
  | cons d ds ih =>
    intro b c hc
    by_cases hd : isLowerAlnum d = true
    · rw [show subDash b (d :: ds) = d :: subDash false ds from by simp [subDash, hd]] at hc
      rcases List.mem_cons.mp hc with e | hm
      · exact Or.inl (e ▸ hd)
      · exact ih false c hm
    · cases b with
      | true =>
        rw [show subDash true (d :: ds) = subDash true ds from by simp [subDash, hd]] at hc
        exact ih true c hc
      | false =>
        rw [show subDash false (d :: ds) = '-' :: subDash true ds from by simp [subDash, hd]] at hc
        rcases List.mem_cons.mp hc with e | hm
        · exact Or.inr e
        · exact ih true c hm

theorem subDash_true_head : ∀ l : List Char, subDash true l = []
    ∨ ∃ c cs, subDash true l = c :: cs ∧ isLowerAlnum c = true := by
  intro l
  induction l with
  | nil => exact Or.inl rfl
  | cons d ds ih =>
    by_cases hd : isLowerAlnum d = true
    · exact Or.inr ⟨d, subDash false ds, by simp [subDash, hd], hd⟩
    · rw [show subDash true (d :: ds) = subDash true ds from by simp [subDash, hd]]
      exact ih

theorem subDash_chain : ∀ (l : List Char) (b : Bool),
    List.Chain' (fun a c => a = '-' → c ≠ '-') (subDash b l) := by
  intro l
  induction l with
  | nil => intro b; simp [subDash]
  | cons d ds ih =>
    intro b
    by_cases hd : isLowerAlnum d = true
    · rw [show subDash b (d :: ds) = d :: subDash false ds from by simp [subDash, hd]]
      exact List.chain'_cons'.mpr ⟨fun y _ e => absurd e (alnum_ne_dash hd), ih false⟩
    · cases b with
      | true =>
        rw [show subDash true (d :: ds) = subDash true ds from by simp [subDash, hd]]
        exact ih true
      | false =>
        rw [show subDash false (d :: ds) = '-' :: subDash true ds from by simp [subDash, hd]]
        refine List.chain'_cons'.mpr ⟨fun y hy _ => ?_, ih true⟩
        rcases subDash_true_head ds with he | ⟨c, cs, he, hc⟩
        · rw [he] at hy
          simp at hy
        · rw [he] at hy
          simp at hy
          exact hy ▸ alnum_ne_dash hc

theorem head_dropWhile {α : Type} {p : α → Bool} :
    ∀ (l : List α) (c : α) (cs : List α), l.dropWhile p = c :: cs → p c = false := by
  intro l
  induction l with
  | nil => intro c cs h; simp [List.dropWhile] at h
  | cons a as ih =>
    intro c cs h
    rw [List.dropWhile_cons] at h
    by_cases ha : p a = true
    · rw [if_pos ha] at h
      exact ih c cs h
    · rw [if_neg ha] at h
      injection h with e1 e2
      subst e1
      exact Bool.not_eq_true _ ▸ ha

theorem reverse_dropWhile_front {α : Type} (p : α → Bool) (m : List α) :
    ((m.reverse.dropWhile p).reverse) <+: m := by
  have hs : m.reverse.dropWhile p <:+ m.reverse := List.dropWhile_suffix p
  have := List.reverse_prefix.mpr hs
  rwa [List.reverse_reverse] at this

theorem stripDash_front (l : List Char) :
    stripDash l <+: l.dropWhile (fun c => c == '-') :=
  reverse_dropWhile_front _ _

theorem stripDash_within (l : List Char) : stripDash l <:+: l :=
  (stripDash_front l).isInfix.trans (List.dropWhile_suffix _).isInfix

theorem stripDash_head : ∀ (l : List Char) (c : Char) (cs : List Char),
    stripDash l = c :: cs → c ≠ '-' := by
  intro l c cs h
  obtain ⟨t2, ht2⟩ := h ▸ stripDash_front l
  have : l.dropWhile (fun x => x == '-') = c :: (cs ++ t2) := by
    rw [← ht2]
    rfl
  have hp := head_dropWhile _ _ _ this
  simpa using hp

theorem stripDash_last : ∀ (l : List Char) (c : Char),
    (stripDash l).getLast? = some c → c ≠ '-' := by
  intro l c h
  unfold stripDash at h
  rw [List.getLast?_reverse] at h
  cases hk : List.dropWhile (fun c => c == '-') (List.dropWhile (fun c => c == '-') l).reverse with
  | nil => rw [hk] at h; simp at h
  | cons a as =>
    rw [hk] at h
    simp at h
    have hp := head_dropWhile _ _ _ hk
    subst h
    simpa using hp

theorem map_id_of_fix {α : Type} {f : α → α} :
    ∀ l : List α, (∀ c ∈ l, f c = c) → l.map f = l := by
  intro l
  induction l with
  | nil => intro _; rfl
  | cons a as ih =>
    intro h
    rw [List.map_cons, h a (List.mem_cons_self a as), ih (fun c hc => h c (List.mem_cons_of_mem a hc))]

theorem subDash_true_eq_false {l : List Char}
    (h : ∀ c, l.head? = some c → isLowerAlnum c = true) : subDash true l = subDash false l := by
  cases l with
  | nil => rfl
  | cons c cs =>
    have hc := h c rfl
    simp [subDash, hc]

theorem subDash_fix : ∀ l : List Char, (∀ c ∈ l, isLowerAlnum c = true ∨ c = '-') →
    List.Chain' (fun a c => a = '-' → c ≠ '-') l → subDash false l = l := by
  intro l
  induction l with
  | nil => intro _ _; rfl
  | cons c cs ih =>
    intro hmem hch
    obtain ⟨hhead, htail⟩ := List.chain'_cons'.mp hch
    rcases hmem c (List.mem_cons_self c cs) with hc | hc
    · rw [show subDash false (c :: cs) = c :: subDash false cs from by simp [subDash, hc]]
      rw [ih (fun d hd => hmem d (List.mem_cons_of_mem c hd)) htail]
    · subst hc
      rw [show subDash false ('-' :: cs) = '-' :: subDash true cs from by
        simp [subDash, show isLowerAlnum '-' = false from by decide]]
      rw [subDash_true_eq_false, ih (fun d hd => hmem d (List.mem_cons_of_mem _ hd)) htail]
      intro d hd
      have hne := hhead d hd rfl
      rcases hmem d (List.mem_cons_of_mem _ (List.mem_of_mem_head? hd)) with h1 | h1
      · exact h1
      · exact absurd h1 hne

theorem dropWhile_eq_self {α : Type} {p : α → Bool} {l : List α}
    (h : ∀ c, l.head? = some c → p c = false) : l.dropWhile p = l := by
  cases l with
  | nil => rfl
  | cons a as =>
    rw [List.dropWhile_cons, if_neg]
    rw [h a rfl]
    simp

theorem stripDash_fix {l : List Char} (h1 : ∀ c, l.head? = some c → c ≠ '-')
    (h2 : ∀ c, l.getLast? = some c → c ≠ '-') : stripDash l = l := by
  unfold stripDash
  have hinner : l.dropWhile (fun c => c == '-') = l :=
    dropWhile_eq_self (fun c hc => by simpa using h1 c hc)
  have houter : l.reverse.dropWhile (fun c => c == '-') = l.reverse :=
    dropWhile_eq_self (fun c hc => by
      rw [List.head?_reverse] at hc
      simpa using h2 c hc)
  rw [hinner, houter, List.reverse_reverse]

/-- C9: slugify is idempotent -- applying it to an already-slugified string
returns it unchanged.  The output of slugify consists of lowercase
alphanumerics and single hyphens with no hyphen at either end, and each of
the three stages (lower-casing, run-collapsing substitution, hyphen
stripping) fixes such strings. -/
theorem c9_slugify_idempotent (s : String) : slugify (slugify s) = slugify s := by
  have key : ∀ t : List Char,
      (∀ c ∈ t, isLowerAlnum c = true ∨ c = '-') →
      List.Chain' (fun a c => a = '-' → c ≠ '-') t →
      (∀ c, t.head? = some c → c ≠ '-') →
      (∀ c, t.getLast? = some c → c ≠ '-') →
      stripDash (subDash false (t.map pyLowerChar)) = t := by
    intro t hmem hch hh hl
    rw [map_id_of_fix t (fun c hc => pyLowerChar_fix (hmem c hc)), subDash_fix t hmem hch,
      stripDash_fix hh hl]
  show String.mk (stripDash (subDash false ((slugify s).toList.map pyLowerChar))) = slugify s
  have hts : (slugify s).toList = stripDash (subDash false (s.toList.map pyLowerChar)) := rfl
  rw [hts]
  refine congrArg String.mk (key _ ?_ ?_ ?_ ?_)
  · exact fun c hc => subDash_mem _ false c ((stripDash_within _).subset hc)
  · exact List.Chain'.infix (subDash_chain _ false) (stripDash_within _)
  · intro c hc
    cases hsd : stripDash (subDash false (s.toList.map pyLowerChar)) with
    | nil => rw [hsd] at hc; simp at hc
    | cons a as =>
      rw [hsd] at hc
      simp at hc
      exact hc ▸ stripDash_head _ a as hsd
  · exact fun c hc => stripDash_last _ c hc

theorem char_eq_of_toNat_eq {a b : Char} (h : a.toNat = b.toNat) : a = b :=
  Char.eq_of_val_eq (UInt32.ext h)

theorem lexLe_total : ∀ a b : List Char, lexLe a b = true ∨ lexLe b a = true := by
  intro a
  induction a with
  | nil => intro b; exact Or.inl rfl
  | cons x xs ih =>
    intro b
    cases b with
    | nil => exact Or.inr rfl
    | cons y ys =>
      by_cases h1 : x.toNat < y.toNat
      · exact Or.inl (by simp [lexLe, h1])
      · by_cases h2 : y.toNat < x.toNat
        · exact Or.inr (by simp [lexLe, h2])
        · rcases ih ys with h | h
          · exact Or.inl (by simp [lexLe, h1, h2, h])
          · exact Or.inr (by simp [lexLe, h1, h2, h])

theorem lexLe_antisymm : ∀ a b : List Char, lexLe a b = true → lexLe b a = true → a = b := by
  intro a
  induction a with
  | nil =>
    intro b _ hba
    cases b with
    | nil => rfl
    | cons y ys => simp [lexLe] at hba
  | cons x xs ih =>
    intro b hab hba
    cases b with
    | nil => simp [lexLe] at hab
    | cons y ys =>
      by_cases h1 : x.toNat < y.toNat
      · simp [lexLe, h1, Nat.not_lt_of_lt h1] at hba
      · by_cases h2 : y.toNat < x.toNat
        · simp [lexLe, h1, h2] at hab
        · have hxy : x = y := char_eq_of_toNat_eq (by omega)
          subst hxy
          simp only [lexLe, if_neg h1, if_neg h2] at hab hba
          rw [ih ys hab hba]

theorem lexLe_trans : ∀ a b c : List Char, lexLe a b = true → lexLe b c = true →
    lexLe a c = true := by
  intro a
  induction a with
  | nil => intro b c _ _; rfl
  | cons x xs ih =>
    intro b c hab hbc
    cases b with
    | nil => simp [lexLe] at hab
    | cons y ys =>
      cases c with
      | nil => simp [lexLe] at hbc
      | cons z zs =>
        simp only [lexLe] at hab hbc ⊢
        by_cases h1 : x.toNat < y.toNat
        · by_cases h2 : y.toNat < z.toNat
          · rw [if_pos (by omega)]
          · rw [if_neg h2] at hbc
            by_cases h3 : z.toNat < y.toNat
            · rw [if_pos h3] at hbc
              simp at hbc
            · rw [if_pos (by omega)]
        · rw [if_neg h1] at hab
          by_cases h4 : y.toNat < x.toNat
          · rw [if_pos h4] at hab
            simp at hab
          · rw [if_neg h4] at hab
            by_cases h2 : y.toNat < z.toNat
            · rw [if_pos (by omega)]
            · rw [if_neg h2] at hbc
              by_cases h3 : z.toNat < y.toNat
              · rw [if_pos h3] at hbc
                simp at hbc
              · rw [if_neg h3] at hbc
                rw [if_neg (by omega), if_neg (by omega)]
                exact ih ys zs hab hbc

theorem string_eq_of_toList_eq {a b : String} (h : a.toList = b.toList) : a = b := by
  cases a
  cases b
  exact congrArg String.mk h

theorem insertSorted_perm : ∀ (l : List String) (s : String), (insertSorted s l).Perm (s :: l) := by
  intro l
  induction l with
  | nil => intro s; exact List.Perm.refl _
  | cons t ts ih =>
    intro s
    unfold insertSorted
    by_cases h : lexLe s.toList t.toList = true
    · rw [if_pos h]
    · rw [if_neg h]
      exact (List.Perm.cons t (ih s)).trans (List.Perm.swap s t ts)

theorem sortStr_perm : ∀ l : List String, (sortStr l).Perm l := by
  intro l
  induction l with
  | nil => exact List.Perm.refl _
  | cons s ss ih => exact (insertSorted_perm (sortStr ss) s).trans (List.Perm.cons s ih)

theorem insertSorted_sorted : ∀ (l : List String) (s : String),
    l.Sorted (fun a b => lexLe a.toList b.toList = true) →
    (insertSorted s l).Sorted (fun a b => lexLe a.toList b.toList = true) := by
  intro l
  induction l with
  | nil => intro s _; simp [insertSorted]
  | cons t ts ih =>
    intro s hs
    obtain ⟨hta, hts⟩ := List.sorted_cons.mp hs
    unfold insertSorted
    by_cases h : lexLe s.toList t.toList = true
    · rw [if_pos h]
      refine List.sorted_cons.mpr ⟨?_, hs⟩
      intro b hb
      rcases List.mem_cons.mp hb with e | hb2
      · exact e ▸ h
      · exact lexLe_trans _ _ _ h (hta b hb2)
    · rw [if_neg h]
      refine List.sorted_cons.mpr ⟨?_, ih s hts⟩
      intro b hb
      rcases List.mem_cons.mp ((insertSorted_perm ts s).mem_iff.mp hb) with e | hb2
      · rw [e]
        rcases lexLe_total s.toList t.toList with h1 | h1
        · exact absurd h1 h
        · exact h1
      · exact hta b hb2

theorem sortStr_sorted : ∀ l : List String,
    (sortStr l).Sorted (fun a b => lexLe a.toList b.toList = true) := by
  intro l
  induction l with
  | nil => simp [sortStr]
  | cons s ss ih => exact insertSorted_sorted (sortStr ss) s ih

theorem sortStr_eq_of_perm (l l' : List String) (h : l.Perm l') : sortStr l = sortStr l' :=
  @List.eq_of_perm_of_sorted String (fun a b => lexLe a.toList b.toList = true)
    ⟨fun a b hab hba => string_eq_of_toList_eq (lexLe_antisymm a.toList b.toList hab hba)⟩ _ _
    ((sortStr_perm l).trans (h.trans (sortStr_perm l').symm)) (sortStr_sorted l) (sortStr_sorted l')

theorem lookup_perm : ∀ {l₁ l₂ : List (String × Yaml)}, l₁.Perm l₂ →
    (l₁.map Prod.fst).Nodup → ∀ k, List.lookup k l₁ = List.lookup k l₂ := by
  intro l₁ l₂ h
  induction h with
  | nil => intro _ k; rfl
  | cons x h ih =>
    intro nd k
    obtain ⟨a, v⟩ := x
    simp only [List.map_cons, List.nodup_cons] at nd
    cases hk : k == a with
    | true => simp [List.lookup_cons, hk]
    | false => simp [List.lookup_cons, hk, ih nd.2 k]
  | swap x y l =>
    intro nd k
    obtain ⟨a, v⟩ := x
    obtain ⟨b, w⟩ := y
    simp only [List.map_cons, List.nodup_cons, List.mem_cons] at nd
    have hba : ¬ b = a := fun e => nd.1 (Or.inl e)
    cases hk1 : k == b with
    | true =>
      have hkb : k = b := by simpa using hk1
      have hk2 : (k == a) = false := by simp [hkb, hba]
      simp [List.lookup_cons, hk1, hk2]
    | false =>
      cases hk2 : k == a with
      | true => simp [List.lookup_cons, hk1, hk2]
      | false => simp [List.lookup_cons, hk1, hk2]
  | trans h1 h2 ih1 ih2 =>
    intro nd k
    rw [ih1 nd k, ih2 (((h1.map Prod.fst).nodup_iff).mp nd) k]

theorem ebind_congr {α β : Type} {A : Except String α} {f g : α → Except String β}
    (h : ∀ a, f a = g a) : (A >>= f) = (A >>= g) := by
  cases A with
  | error e => rfl
  | ok a => exact h a

theorem shape3_phases_congr (dm dm' : List (String × Yaml))
    (hl : ∀ k, List.lookup k dm = List.lookup k dm') :
    ∀ (ks : List String) (acc : List TaskRec) (im : List (String × String)),
    shape3_phases dm ks acc im = shape3_phases dm' ks acc im := by
  intro ks
  induction ks with
  | nil => intro acc im; rfl
  | cons k ks ih =>
    intro acc im
    simp only [shape3_phases, hl k]
    cases List.lookup k dm' with
    | none => rfl
    | some pdY =>
      cases pdY with
      | map pd =>
        refine ebind_congr (fun (s : String) => ?_)
        by_cases hc : truthy (mget pd "tasks" (Yaml.map [])) = true
        · rw [if_pos hc, if_pos hc]
          exact ebind_congr (fun (y : List (String × Yaml)) => ebind_congr
            (fun (pair : List TaskRec × List (String × String)) => ih pair.1 pair.2))
        · rw [if_neg hc, if_neg hc]
          exact ebind_congr (fun (y : List (String × Yaml)) => ebind_congr
            (fun (pair : List TaskRec × List (String × String)) => ih pair.1 pair.2))
      | null => exact ih acc im
      | bool b => exact ih acc im
      | int n => exact ih acc im
      | str s => exact ih acc im
      | seq l => exact ih acc im

theorem parseCore_perm (dm dm' : List (String × Yaml)) (hp : dm.Perm dm')
    (nd : (dm.map Prod.fst).Nodup) : parseCore dm = parseCore dm' := by
  have hl : ∀ k, List.lookup k dm = List.lookup k dm' := lookup_perm hp nd
  have hkperm : (phaseKeysOf dm).Perm (phaseKeysOf dm') := (hp.map Prod.fst).filter _
  have hsort : sortStr (phaseKeysOf dm) = sortStr (phaseKeysOf dm') :=
    sortStr_eq_of_perm _ _ hkperm
  have hempty : (phaseKeysOf dm).isEmpty = (phaseKeysOf dm').isEmpty := by
    cases h1 : phaseKeysOf dm with
    | nil =>
      rw [h1] at hkperm
      rw [List.perm_nil.mp hkperm.symm]
    | cons a t =>
      cases h2 : phaseKeysOf dm' with
      | nil =>
        rw [h1, h2] at hkperm
        exact absurd (List.perm_nil.mp hkperm) (by simp)
      | cons b u => rfl
  have hmg1 : mget dm "metadata" (Yaml.map []) = mget dm' "metadata" (Yaml.map []) := by
    rw [mget, mget, hl]
  have hmg2 : mget dm "phases" (Yaml.seq []) = mget dm' "phases" (Yaml.seq []) := by
    rw [mget, mget, hl]
  have hmg3 : mget dm "tasks" (Yaml.seq []) = mget dm' "tasks" (Yaml.seq []) := by
    rw [mget, mget, hl]
  have hsh : shape3_phases dm (sortStr (phaseKeysOf dm')) [] []
      = shape3_phases dm' (sortStr (phaseKeysOf dm')) [] [] :=
    shape3_phases_congr dm dm' hl _ [] []
  simp only [parseCore, hmg1, hmg2, hmg3, hl "project", hsort, hempty, hsh]

/-- C10: shape-3 phase groups are processed in ascending lexicographic order
of their top-level keys (sorted(phase_keys) at line 108): the whole
extraction result is invariant under any reordering of the documents
top-level entries, the processed key list is sorted and a permutation of the
detected keys, and on a concrete document whose phase2 key precedes its
phase1 key the output records still appear grouped phase1-first. -/
theorem c10_sorted_phase_keys :
    (∀ (dm dm' : List (String × Yaml)), dm.Perm dm' → (dm.map Prod.fst).Nodup →
      parse_tasks_yaml (Yaml.map dm) = parse_tasks_yaml (Yaml.map dm'))
    ∧ (∀ l : List String,
      (sortStr l).Sorted (fun a b => lexLe a.toList b.toList = true) ∧ (sortStr l).Perm l)
    ∧ (parse_tasks_yaml (Yaml.map [("phase2_b", Yaml.map [("name", Yaml.str "B"),
          ("tasks", Yaml.map [("t2", Yaml.map [])])]),
        ("phase1_a", Yaml.map [("name", Yaml.str "A"),
          ("tasks", Yaml.map [("t1", Yaml.map [])])])])).map
        (fun r => r.tasks.map (fun t => (t.id, t.label)))
      = .ok [("t1", "a"), ("t2", "b")] :=
  ⟨fun dm dm' hp nd => parseCore_perm dm dm' hp nd,
   fun l => ⟨sortStr_sorted l, sortStr_perm l⟩, rfl⟩

/-- Witness for c10_sorted_phase_keys: the two orderings of a two-phase
document parse identically. -/
theorem c10_sorted_phase_keys_witness :
    parse_tasks_yaml (Yaml.map [("phase2_b", Yaml.map [("name", Yaml.str "B"),
        ("tasks", Yaml.map [("t2", Yaml.map [])])]),
      ("phase1_a", Yaml.map [("name", Yaml.str "A"),
        ("tasks", Yaml.map [("t1", Yaml.map [])])])])
    = parse_tasks_yaml (Yaml.map [("phase1_a", Yaml.map [("name", Yaml.str "A"),
        ("tasks", Yaml.map [("t1", Yaml.map [])])]),
      ("phase2_b", Yaml.map [("name", Yaml.str "B"),
        ("tasks", Yaml.map [("t2", Yaml.map [])])])]) :=
  c10_sorted_phase_keys.1 _ _ (List.Perm.swap _ _ []) (by decide)
